import Mathlib

/-!
Shallow embedding of the `claude-api-py` client library.

The embedded code comes from `claude/custom_requests.py`,
`claude/claude_client.py` and `claude/raw_api.py`:

* Python `dict`s are modelled as association lists with first-match
  `lookup` and position-preserving `dictInsert` (this is exactly the
  observable behaviour of `d[k]`, `k in d`, `d[k] = v` and `d.update`
  on insertion-ordered dicts);
* `bytes` buffers are modelled as `List Char`;
* the network is modelled as an oracle argument mapping a request to the
  outcome that `urllib.request.urlopen` produces for it;
* the random multipart boundary (`uuid.uuid4()`) is modelled as an input;
* logging calls (`logger.…`) have no observable effect and are dropped.

Definitions come first, then the theorems about them.
-/

namespace ClaudeSpec

/-! ## Python dict model -/

/-- First-match lookup in an association list; models Python `d[key]`
(when it does not raise) and `key in d` on a `dict` with string keys. -/
def lookup {α : Type} : List (String × α) → String → Option α
  | [], _ => none
  | (k, v) :: rest, key => if k = key then some v else lookup rest key

/-- Models Python `d[key] = val`: replaces the value at an existing key,
keeping its position, or appends a new entry at the end. -/
def dictInsert {α : Type} : List (String × α) → String → α → List (String × α)
  | [], key, val => [(key, val)]
  | (k, v) :: rest, key, val =>
    if k = key then (k, val) :: rest else (k, v) :: dictInsert rest key val

/-- Models Python `d.update(other)`. -/
def dictUpdate {α : Type} (d : List (String × α)) (other : List (String × α)) :
    List (String × α) :=
  other.foldl (fun acc kv => dictInsert acc kv.1 kv.2) d

/-! ## Stream aggregation (`ClaudeClient.send_message`, non-streaming branch)

A decoded stream event (`json.loads` of one SSE chunk) is modelled as an
association list from field name to string value; the fold only ever reads
the two string-valued fields `completion` and `stop_reason` and treats every
other field as opaque, so opaque values are modelled as strings. -/

abbrev Event := List (String × String)

/-- `STOP_SEQUENCE` constant from `ClaudeClient.send_message`. -/
def STOP_SEQUENCE : String := "stop_sequence"

/-- `'stop_reason' in elem and elem['stop_reason'] == STOP_SEQUENCE`. -/
def isStopEvent (e : Event) : Bool :=
  lookup e "stop_reason" = some STOP_SEQUENCE

/-- The `for elem in self._send_message(...)` loop of the non-streaming
branch of `ClaudeClient.send_message` (claude_client.py lines 69-89):
state is the `aggregated_completion` list and the `final_response` slot;
the loop breaks right after an event whose `stop_reason` is
`STOP_SEQUENCE`. -/
def sendMessageLoop : List Event → List String → Option Event → (List String × Option Event)
  | [], acc, last => (acc, last)
  | e :: rest, acc, _ =>
    let acc' := match lookup e "completion" with
      | some v => acc ++ [v]
      | none => acc
    if isStopEvent e then (acc', some e)
    else sendMessageLoop rest acc' (some e)

/-- Non-streaming branch of `ClaudeClient.send_message`
(claude_client.py lines 69-98), as a function of the decoded stream events
its generator yields: run the fold loop; return `None` if no event was seen,
otherwise the last event with its `completion` field replaced by
`''.join(aggregated_completion)`. -/
def sendMessage (events : List Event) : Option Event :=
  match sendMessageLoop events [] none with
  | (_, none) => none
  | (acc, some e) => some (dictInsert e "completion" (String.join acc))

/-- Specification-side definition: the prefix of the event sequence that the
fold actually consumes — everything up to and including the first event whose
`stop_reason` equals the stop sequence. -/
def consumedEvents : List Event → List Event
  | [] => []
  | e :: rest => if isStopEvent e then [e] else e :: consumedEvents rest

/-- Specification-side definition: the `completion` fragments of a list of
events, in arrival order. -/
def completionFragments (events : List Event) : List String :=
  events.filterMap (fun e => lookup e "completion")

/-! ## Header composition (`_get_default_header`, per-call merges, and the
streaming `accept` augmentation) -/

abbrev Headers := List (String × String)

/-- `ClaudeClient._get_default_header` (claude_client.py lines 348-354):
an empty dict updated with the spoofed headers, then `user-agent`, then the
session cookie. -/
def getDefaultHeader (spoofed : Headers) (userAgent sessionKey : String) : Headers :=
  dictUpdate (dictUpdate (dictUpdate [] spoofed) [("user-agent", userAgent)])
    [("cookie", "sessionKey=" ++ sessionKey)]

/-- The per-call header build used by e.g. `ClaudeClient.create_conversation`
(claude_client.py lines 151-153): `header = {}`, `header.update(default)`,
`header.update(percall)`. -/
def requestHeader (spoofed : Headers) (userAgent sessionKey : String)
    (percall : Headers) : Headers :=
  dictUpdate (dictUpdate [] (getDefaultHeader spoofed userAgent sessionKey)) percall

/-- The `accept` augmentation of the streaming send path
(claude_client.py lines 332-335 and raw_api.py lines 51-54):
`if header["accept"]: header["accept"] += ",text/event-stream,text/event-stream"
else: header["accept"] = "text/event-stream,text/event-stream"`.
Reading `header["accept"]` raises `KeyError` when the key is absent,
modelled as `none`; an empty string is falsy, taking the `else` branch. -/
def addStreamAccept (header : Headers) : Option Headers :=
  match lookup header "accept" with
  | none => none
  | some v =>
    if v = "" then
      some (dictInsert header "accept" "text/event-stream,text/event-stream")
    else
      some (dictInsert header "accept" (v ++ ",text/event-stream,text/event-stream"))

/-- Header pipeline of `RawClaudeAPI.send_message` (raw_api.py lines 47-54):
`{}` updated with the spoofed headers, the auth cookie and the JSON
content type, then run through the `accept` augmentation. -/
def rawApiSendMessageHeader (spoofed : Headers) (sessionKey : String) : Option Headers :=
  addStreamAccept (dictUpdate (dictUpdate (dictUpdate [] spoofed)
    [("cookie", "sessionKey=" ++ sessionKey)]) [("content-type", "application/json")])

/-! ## Multipart form data (`custom_requests.FormData`) -/

/-- Carriage return/line feed separator (custom_requests.py line 26). -/
def CRLF : String := "\r\n"

/-- `CRLF` as a byte (char) list. -/
def crlf : List Char := CRLF.data

/-- `FormData`'s internal state: the `_fields` and `_files` dicts.
A file entry maps a field name to a `(file_name, file bytes)` pair — the
`io.BufferedReader` is modelled by the byte content that `f.read()`
produces. -/
structure FormData where
  fields : List (String × String)
  files : List (String × (String × List Char))
  deriving DecidableEq

/-- One mutation of a `FormData`: the constructor's per-entry dict
assignments, `add_field`, and `add_file` all perform exactly these
dictionary writes. -/
inductive FormOp
  | addField (key value : String)
  | addFile (key fileName : String) (content : List Char)
  deriving DecidableEq

def applyFormOp (fd : FormData) : FormOp → FormData
  | .addField k v => { fd with fields := dictInsert fd.fields k v }
  | .addFile k fn c => { fd with files := dictInsert fd.files k (fn, c) }

/-- A `FormData` built from an empty state by a sequence of entry
insertions (constructor entries and/or later `add_field`/`add_file`
calls), in order. -/
def buildFormData (ops : List FormOp) : FormData :=
  ops.foldl applyFormOp ⟨[], []⟩

def FormOp.fieldEntry? : FormOp → Option (String × String)
  | .addField k v => some (k, v)
  | .addFile _ _ _ => none

def FormOp.fileEntry? : FormOp → Option (String × (String × List Char))
  | .addField _ _ => none
  | .addFile k fn c => some (k, (fn, c))

def FormOp.isFieldOp : FormOp → Bool
  | .addField _ _ => true
  | .addFile _ _ _ => false

/-- Model of the Python standard library `mimetypes.guess_type` (first
component), restricted to a representative extension table; `none` for
unknown extensions. -/
def guess_type (fileName : String) : Option String :=
  if fileName.endsWith ".txt" then some "text/plain"
  else if fileName.endsWith ".json" then some "application/json"
  else if fileName.endsWith ".pdf" then some "application/pdf"
  else if fileName.endsWith ".png" then some "image/png"
  else if fileName.endsWith ".jpg" then some "image/jpeg"
  else none

/-- `mimetypes.guess_type(file_name)[0] or "application/octet-stream"`
(custom_requests.py lines 116-118). -/
def ctOf (fileName : String) : String :=
  (guess_type fileName).getD "application/octet-stream"

/-- `boundary_segment` (custom_requests.py line 96). -/
def boundarySegment (b : String) : String := "--" ++ b

/-- The fixed text of a `content-disposition` header up to the opening
quote of the field name. -/
def dispositionLead : String := "content-disposition: form-data; name=\""

/-- The fixed text between the closing quote of the field name and the
opening quote of the filename in a file part's `content-disposition`. -/
def fileNameLead : String := "; filename=\""

/-- The fixed text of a `content-type` header up to the media type. -/
def contentTypeLead : String := "content-type: "

/-- The bytes written for one plain field
(custom_requests.py lines 105-108):
`CRLF.join([boundary_segment, field_header, "", value])` with
`field_header = f'content-disposition: form-data; name="{key}"'`. -/
def fieldChunkStr (b key value : String) : String :=
  boundarySegment b ++ CRLF ++ dispositionLead ++ key ++ "\"" ++ CRLF ++ CRLF ++ value

/-- The header bytes written for one file field, before the separate CRLF
write and the raw file bytes (custom_requests.py lines 115-124):
`CRLF.join([boundary_segment, field_header, content_type_header, ""])` with
`field_header = f'content-disposition: form-data; name="{key}"; filename="{fileName}"'`
and `content_type_header = f"content-type: {content_type}"`. -/
def fileChunkHeaderStr (b key fileName : String) : String :=
  boundarySegment b ++ CRLF ++ dispositionLead ++ key ++ "\"" ++ fileNameLead ++ fileName
    ++ "\"" ++ CRLF ++ contentTypeLead ++ ctOf fileName ++ CRLF

/-- The fields loop of `FormData.encode` (custom_requests.py lines 100-108),
with the `needsCRLF` flag threaded through. -/
def fieldBytes (b : String) : List (String × String) → Bool → List Char
  | [], _ => []
  | (k, v) :: rest, needs =>
    (if needs then crlf else []) ++ (fieldChunkStr b k v).data ++ fieldBytes b rest true

/-- The files loop of `FormData.encode` (custom_requests.py lines 110-127). -/
def fileBytes (b : String) : List (String × (String × List Char)) → Bool → List Char
  | [], _ => []
  | (k, (fn, c)) :: rest, needs =>
    (if needs then crlf else []) ++ (fileChunkHeaderStr b k fn).data ++ crlf ++ c
      ++ fileBytes b rest true

/-- The closing boundary write (custom_requests.py line 130):
`f"{CRLF}--{generated_boundary}--{CRLF}"`. -/
def footerBytes (b : String) : List Char := (CRLF ++ "--" ++ b ++ "--" ++ CRLF).data

/-- `FormData.encode` (custom_requests.py lines 93-133) with the random
per-call boundary as an input: returns the content-type string and the
encoded request body. -/
def FormData.encode (b : String) (fd : FormData) : String × List Char :=
  ("multipart/form-data; boundary=" ++ b,
   fieldBytes b fd.fields false ++ fileBytes b fd.files (!fd.fields.isEmpty) ++ footerBytes b)

/-- Chunk of one plain field as bytes (for stating part ordering). -/
def fieldChunk (b : String) (kv : String × String) : List Char :=
  (fieldChunkStr b kv.1 kv.2).data

/-- Chunk of one file field as bytes: header lines, blank line, raw file
bytes. -/
def fileChunk (b : String) (kfc : String × (String × List Char)) : List Char :=
  (fileChunkHeaderStr b kfc.1 kfc.2.1).data ++ crlf ++ kfc.2.2

/-- CRLF-join of byte chunks (specification-side). -/
def joinCRLF : List (List Char) → List Char
  | [] => []
  | [x] => x
  | x :: y :: rest => x ++ crlf ++ joinCRLF (y :: rest)

/-! ## Multipart reference decoder (specification-side)

A multipart part as a reference parser recovers it: a plain field
(name, value) or a file field (name, filename, content-type, raw bytes). -/

inductive FormPart
  | field (name value : String)
  | file (name fileName contentType : String) (content : List Char)
  deriving DecidableEq

/-- The parts a `FormData` encodes, plain fields first, then files, with the
content type the encoder guesses. -/
def formParts (fd : FormData) : List FormPart :=
  fd.fields.map (fun kv => .field kv.1 kv.2) ++
  fd.files.map (fun kfc => .file kfc.1 kfc.2.1 (ctOf kfc.2.1) kfc.2.2)

/-- The byte stream that follows a just-consumed `--boundary` marker when
`parts` remain: either the closing `--` plus CRLF, or the current part's
header lines, blank line and content, followed by a CRLF, the next marker
and the rest. -/
def renderAfter (b : String) : List FormPart → List Char
  | [] => ("--" ++ CRLF).data
  | .field k v :: rest =>
    (CRLF ++ dispositionLead ++ k ++ "\"" ++ CRLF ++ CRLF ++ v).data
      ++ crlf ++ ("--" ++ b).data ++ renderAfter b rest
  | .file k fn ct c :: rest =>
    (CRLF ++ dispositionLead ++ k ++ "\"" ++ fileNameLead ++ fn ++ "\"" ++ CRLF
      ++ contentTypeLead ++ ct ++ CRLF ++ CRLF).data ++ c
      ++ crlf ++ ("--" ++ b).data ++ renderAfter b rest

/-- Well-formedness of a part for boundary-delimited framing: names and
filenames carry no carriage return and no double quote, values, content
types and file bytes carry no carriage return. -/
def FormPart.wf : FormPart → Prop
  | .field k v => '\r' ∉ k.data ∧ '\"' ∉ k.data ∧ '\r' ∉ v.data
  | .file k fn ct c =>
    '\r' ∉ k.data ∧ '\"' ∉ k.data ∧ '\r' ∉ fn.data ∧ '\"' ∉ fn.data ∧ '\r' ∉ ct.data
      ∧ '\r' ∉ c

/-- Strip an exact leading token, or fail. -/
def stripLead {α : Type} [DecidableEq α] : List α → List α → Option (List α)
  | [], s => some s
  | _ :: _, [] => none
  | p :: ps, c :: cs => if p = c then stripLead ps cs else none

/-- Split at the first occurrence of `marker`: returns the bytes before it
and the bytes after it (the marker itself consumed). -/
def splitFirst {α : Type} [DecidableEq α] (marker : List α) : List α → Option (List α × List α)
  | [] =>
    match stripLead marker [] with
    | some rest => some ([], rest)
    | none => none
  | c :: cs =>
    match stripLead marker (c :: cs) with
    | some rest => some ([], rest)
    | none =>
      match splitFirst marker cs with
      | some (pre, post) => some (c :: pre, post)
      | none => none

/-- Reference multipart parser, working on the buffer that follows a
just-consumed `--boundary` marker; `fuel` bounds the number of parts.
After the marker, either `--` and CRLF close the body, or a CRLF opens the
next part: its `content-disposition` line (with or without a filename),
for file parts a `content-type` line, a blank line, and the content, which
extends to the next CRLF-plus-marker. -/
def parseParts (b : String) : Nat → List Char → Option (List FormPart)
  | 0, _ => none
  | fuel + 1, s =>
    match stripLead crlf s with
    | none => if s = ("--" ++ CRLF).data then some [] else none
    | some s1 =>
      (splitFirst crlf s1).bind fun ds =>
        (stripLead dispositionLead.data ds.1).bind fun r1 =>
          (splitFirst ['\"'] r1).bind fun nq =>
            if nq.2 = [] then
              (stripLead crlf ds.2).bind fun s3 =>
                (splitFirst (crlf ++ ("--" ++ b).data) s3).bind fun vs =>
                  (parseParts b fuel vs.2).bind fun parts =>
                    some (.field (String.mk nq.1) (String.mk vs.1) :: parts)
            else
              (stripLead fileNameLead.data nq.2).bind fun r2 =>
                (splitFirst ['\"'] r2).bind fun ft =>
                  if ft.2 = [] then
                    (splitFirst crlf ds.2).bind fun cs =>
                      (stripLead contentTypeLead.data cs.1).bind fun ctChars =>
                        (stripLead crlf cs.2).bind fun s4 =>
                          (splitFirst (crlf ++ ("--" ++ b).data) s4).bind fun bs =>
                            (parseParts b fuel bs.2).bind fun parts =>
                              some (.file (String.mk nq.1) (String.mk ft.1)
                                (String.mk ctChars) bs.1 :: parts)
                  else none

/-- Reference multipart parser over a whole encoded body: expects the
buffer to open with `--boundary` and recovers the list of parts. -/
def multipartParse (b : String) (s : List Char) : Option (List FormPart) :=
  match stripLead ("--" ++ b).data s with
  | none => none
  | some rest => parseParts b (rest.length + 1) rest

/-! ## Transport (`custom_requests` request methods) -/

/-- `custom_requests.Response` (custom_requests.py lines 29-46); `data` is
the raw body (`bytes`, modelled as `List Char`). -/
structure Response where
  ok : Bool
  data : List Char
  status_code : Option Nat
  error : Option String
  deriving DecidableEq

/-- What `urlopen` + `getcode` + `read` does for one request, as seen by
`_safe_request_read`'s `try` block:
* `success`: `urlopen` returns, `getcode()` gives the status, `read()`
  gives the body;
* `raiseBeforeStatus`: `urlopen` itself raises `HTTPError`/`URLError`
  (connection refused, DNS failure, or a non-2xx status such as 500 —
  `urlopen` raises `HTTPError` for those) so the local `status_code`
  variable is never assigned;
* `raiseAfterStatus`: `read()` raises after `getcode()` succeeded. -/
inductive UrlOpenOutcome
  | success (status : Nat) (body : List Char)
  | raiseBeforeStatus (errorMessage : String)
  | raiseAfterStatus (status : Nat) (errorMessage : String)
  deriving DecidableEq

/-- `_safe_request_read` (custom_requests.py lines 227-237). -/
def safeRequestRead : UrlOpenOutcome → Response
  | .success s body => { ok := true, data := body, status_code := some s, error := none }
  | .raiseBeforeStatus msg => { ok := false, data := [], status_code := none, error := some msg }
  | .raiseAfterStatus s msg => { ok := false, data := [], status_code := some s, error := some msg }

/-- A fully built `urllib.request.Request`: method, url, added headers and
optional pre-encoded body bytes. -/
structure HttpRequest where
  method : String
  url : String
  headers : Headers
  body : Option (List Char)
  deriving DecidableEq

/-- The network as an oracle: what `urlopen` does for a given request. -/
abbrev Network := HttpRequest → UrlOpenOutcome

def getRequest (url : String) (headers : Headers) : HttpRequest :=
  ⟨"GET", url, headers, none⟩

def postRequest (url : String) (headers : Headers) (body : Option (List Char)) : HttpRequest :=
  ⟨"POST", url, headers, body⟩

def deleteRequest (url : String) (headers : Headers) : HttpRequest :=
  ⟨"DELETE", url, headers, none⟩

/-- `custom_requests.get` (custom_requests.py lines 162-169). -/
def get (url : String) (headers : Headers) (net : Network) : Response :=
  safeRequestRead (net (getRequest url headers))

/-- `custom_requests.post` (custom_requests.py lines 172-194); the body is
modelled after the type-dispatching encode (bytes pass through unchanged,
strings are UTF-8 encoded, JSON values are dumped then encoded), so `body`
here is the encoded byte payload or `none`. -/
def post (url : String) (headers : Headers) (body : Option (List Char)) (net : Network) :
    Response :=
  safeRequestRead (net (postRequest url headers body))

/-- `custom_requests.delete` (custom_requests.py lines 217-224). -/
def delete (url : String) (headers : Headers) (net : Network) : Response :=
  safeRequestRead (net (deleteRequest url headers))

/-- The header copy built by `post_form_data` (custom_requests.py lines
153-158): a copy of the caller's headers with `content-type` and
`content-length` injected. -/
def postFormDataHeaders (b : String) (headers : Headers) (fd : FormData) : Headers :=
  dictUpdate (dictUpdate headers [("content-type", (FormData.encode b fd).1)])
    [("content-length", toString (FormData.encode b fd).2.length)]

/-- `custom_requests.post_form_data` (custom_requests.py lines 149-159),
with the `FormData` already built from the `files` dict and the random
boundary as an input. -/
def postFormData (b : String) (url : String) (headers : Headers) (fd : FormData)
    (net : Network) : Response :=
  post url (postFormDataHeaders b headers fd) (some (FormData.encode b fd).2) net

/-- The invariant §3 states for a `Response Result`, relative to the
network outcome that produced it. -/
def ResultInvariant (o : UrlOpenOutcome) (r : Response) : Prop :=
  (r.ok = true → r.error = none ∧ ∃ s body, o = .success s body ∧ r.data = body) ∧
  (r.ok = false → r.data = [])

/-! ## SSE streaming (`custom_requests.sse`) -/

/-- What the network delivers to the `sse` generator: the decoded event
payload strings in order, ended either by normal connection close or by an
`HTTPError`/`URLError` raised mid-iteration (after the listed events; a
connection failure before the first event is `transportError [] msg`). -/
inductive StreamOutcome
  | ended (events : List String)
  | transportError (events : List String) (errorMessage : String)
  deriving DecidableEq

/-- `custom_requests.sse` (custom_requests.py lines 197-214) as the
sequence of payloads the caller's iteration observes: the `try` block
yields each event; `HTTPError`/`URLError` is caught, printed, and the
generator simply ends — nothing about the failure reaches the caller. -/
def sse (outcome : StreamOutcome) : List String :=
  match outcome with
  | .ended events => events
  | .transportError events _ => events

/-! # Theorems -/

/-! ## Dict lemmas -/

theorem dictInsert_cons_self {α : Type} (rest : List (String × α)) (k : String) (v0 v : α) :
    dictInsert ((k, v0) :: rest) k v = (k, v) :: rest := by
  simp [dictInsert]

theorem dictInsert_cons_ne {α : Type} (rest : List (String × α)) (k0 k : String) (v0 v : α)
    (h : k0 ≠ k) : dictInsert ((k0, v0) :: rest) k v = (k0, v0) :: dictInsert rest k v := by
  simp [dictInsert, h]

theorem lookup_cons {α : Type} (rest : List (String × α)) (k0 key : String) (v0 : α) :
    lookup ((k0, v0) :: rest) key = if k0 = key then some v0 else lookup rest key := rfl

theorem lookup_dictInsert_self {α : Type} (d : List (String × α)) (k : String) (v : α) :
    lookup (dictInsert d k v) k = some v := by
  induction d with
  | nil => simp [dictInsert, lookup]
  | cons hd rest ih =>
    obtain ⟨k0, v0⟩ := hd
    by_cases h : k0 = k
    · subst h
      rw [dictInsert_cons_self, lookup_cons, if_pos rfl]
    · rw [dictInsert_cons_ne rest k0 k v0 v h, lookup_cons, if_neg h, ih]

theorem lookup_dictInsert_ne {α : Type} (d : List (String × α)) (k k' : String) (v : α)
    (h : k' ≠ k) : lookup (dictInsert d k v) k' = lookup d k' := by
  induction d with
  | nil =>
    show (if k = k' then some v else none) = none
    rw [if_neg (fun hh => h hh.symm)]
  | cons hd rest ih =>
    obtain ⟨k0, v0⟩ := hd
    by_cases h0 : k0 = k
    · subst h0
      rw [dictInsert_cons_self, lookup_cons, lookup_cons,
        if_neg (fun hh => h hh.symm), if_neg (fun hh => h hh.symm)]
    · rw [dictInsert_cons_ne rest k0 k v0 v h0, lookup_cons, lookup_cons, ih]

theorem lookup_eq_none_iff {α : Type} (d : List (String × α)) (k : String) :
    lookup d k = none ↔ k ∉ d.map Prod.fst := by
  induction d with
  | nil => simp [lookup]
  | cons hd rest ih =>
    obtain ⟨k0, v0⟩ := hd
    by_cases h0 : k0 = k
    · subst h0
      simp [lookup_cons]
    · have h0' : k ≠ k0 := fun hh => h0 hh.symm
      simp [lookup_cons, h0, h0', ih]

theorem mem_keys_dictInsert {α : Type} (d : List (String × α)) (k a : String) (v : α) :
    a ∈ (dictInsert d k v).map Prod.fst ↔ a = k ∨ a ∈ d.map Prod.fst := by
  induction d with
  | nil => simp [dictInsert]
  | cons hd rest ih =>
    obtain ⟨k0, v0⟩ := hd
    by_cases h0 : k0 = k
    · subst h0
      rw [dictInsert_cons_self]
      simp
      try tauto
    · rw [dictInsert_cons_ne rest k0 k v0 v h0]
      simp [ih]
      tauto

theorem nodup_keys_dictInsert {α : Type} (d : List (String × α)) (k : String) (v : α)
    (h : (d.map Prod.fst).Nodup) : ((dictInsert d k v).map Prod.fst).Nodup := by
  induction d with
  | nil => simp [dictInsert]
  | cons hd rest ih =>
    obtain ⟨k0, v0⟩ := hd
    simp only [List.map_cons, List.nodup_cons] at h
    by_cases h0 : k0 = k
    · subst h0
      rw [dictInsert_cons_self]
      simp only [List.map_cons, List.nodup_cons]
      exact ⟨h.1, h.2⟩
    · rw [dictInsert_cons_ne rest k0 k v0 v h0]
      simp only [List.map_cons, List.nodup_cons]
      refine ⟨?_, ih h.2⟩
      intro hmem
      rcases (mem_keys_dictInsert rest k k0 v).1 hmem with h1 | h1
      · exact h0 h1
      · exact h.1 h1

theorem nodup_keys_dictUpdate {α : Type} (d other : List (String × α))
    (h : (d.map Prod.fst).Nodup) : ((dictUpdate d other).map Prod.fst).Nodup := by
  induction other generalizing d with
  | nil => exact h
  | cons hd rest ih =>
    exact ih (dictInsert d hd.1 hd.2) (nodup_keys_dictInsert d hd.1 hd.2 h)

/-- `d.update(other)` looked up at `k`: the value from `other` wins when `k`
is a key of `other` (which must be duplicate-free, as every Python dict is),
otherwise the original value survives. -/
theorem lookup_dictUpdate {α : Type} (d other : List (String × α)) (k : String)
    (hnd : (other.map Prod.fst).Nodup) :
    lookup (dictUpdate d other) k =
      match lookup other k with
      | some v => some v
      | none => lookup d k := by
  induction other generalizing d with
  | nil => simp [dictUpdate, lookup]
  | cons hd rest ih =>
    obtain ⟨k0, v0⟩ := hd
    simp only [List.map_cons, List.nodup_cons] at hnd
    have hupd : dictUpdate d ((k0, v0) :: rest) = dictUpdate (dictInsert d k0 v0) rest := rfl
    rw [hupd, ih (dictInsert d k0 v0) hnd.2]
    by_cases h0 : k0 = k
    · subst h0
      have hrest : lookup rest k0 = none := (lookup_eq_none_iff rest k0).2 hnd.1
      rw [lookup_cons, if_pos rfl, hrest, lookup_dictInsert_self]
    · rw [lookup_cons, if_neg h0]
      cases hlr : lookup rest k with
      | some v => simp
      | none => simp [lookup_dictInsert_ne d k0 k v0 (fun hh => h0 hh.symm)]

/-! ## Stream-fold lemmas and claims C1, C2, C10 -/

theorem consumedEvents_idem (events : List Event) :
    consumedEvents (consumedEvents events) = consumedEvents events := by
  induction events with
  | nil => rfl
  | cons e rest ih =>
    by_cases h : isStopEvent e
    · simp [consumedEvents, h]
    · simp [consumedEvents, h, ih]

theorem sendMessageLoop_spec (events : List Event) (acc : List String) (last : Option Event) :
    sendMessageLoop events acc last =
      (acc ++ completionFragments (consumedEvents events),
       match (consumedEvents events).getLast? with
       | some e => some e
       | none => last) := by
  induction events generalizing acc last with
  | nil => simp [sendMessageLoop, consumedEvents, completionFragments]
  | cons e rest ih =>
    cases hstop : isStopEvent e with
    | true =>
      cases hc : lookup e "completion" with
      | some v =>
        simp [sendMessageLoop, hstop, hc, consumedEvents, completionFragments]
      | none =>
        simp [sendMessageLoop, hstop, hc, consumedEvents, completionFragments]
    | false =>
      have hcons : consumedEvents (e :: rest) = e :: consumedEvents rest := by
        simp [consumedEvents, hstop]
      have hlast :
          (match (consumedEvents rest).getLast? with
           | some y => some y
           | none => some e) =
          (match (e :: consumedEvents rest).getLast? with
           | some y => some y
           | none => last) := by
        cases hl : consumedEvents rest with
        | nil => simp
        | cons a as =>
          rw [List.getLast?_cons_cons]
          cases hg : (a :: as).getLast? with
          | some y => simp
          | none =>
            exact absurd hg (by simp)
      have hstep : sendMessageLoop (e :: rest) acc last =
          sendMessageLoop rest
            (match lookup e "completion" with
             | some v => acc ++ [v]
             | none => acc) (some e) := by
        cases hc : lookup e "completion" with
        | some v => simp [sendMessageLoop, hstop, hc]
        | none => simp [sendMessageLoop, hstop, hc]
      rw [hstep, ih, hcons]
      refine congrArg₂ Prod.mk ?_ ?_
      · cases hc : lookup e "completion" with
        | some v => simp [completionFragments, hc]
        | none => simp [completionFragments, hc]
      · exact hlast

/-- Closed form of the non-streaming fold: `None` when nothing was consumed,
otherwise the last consumed event with `completion` replaced by the joined
fragments of the consumed prefix. -/
theorem sendMessage_eq (events : List Event) :
    sendMessage events =
      match (consumedEvents events).getLast? with
      | none => none
      | some le => some (dictInsert le "completion"
          (String.join (completionFragments (consumedEvents events)))) := by
  unfold sendMessage
  rw [sendMessageLoop_spec]
  cases hg : (consumedEvents events).getLast? with
  | none => simp
  | some le => simp

theorem consumedEvents_ne_nil (events : List Event) (h : events ≠ []) :
    consumedEvents events ≠ [] := by
  cases events with
  | nil => exact absurd rfl h
  | cons e rest =>
    cases hstop : isStopEvent e with
    | true => simp [consumedEvents, hstop]
    | false => simp [consumedEvents, hstop]

/-- C1: the folded (non-streaming) `send_message` returns the last consumed
event with `completion` replaced by the in-order concatenation of the
consumed events' fragments; all other fields come from the last consumed
event; consumption stops right after the first event whose `stop_reason`
equals `"stop_sequence"`, so later events never influence the result. -/
theorem sendMessage_fold_spec :
    (∀ events : List Event, events ≠ [] →
      ∃ r le, sendMessage events = some r ∧
        (consumedEvents events).getLast? = some le ∧
        lookup r "completion" =
          some (String.join (completionFragments (consumedEvents events))) ∧
        (∀ k, k ≠ "completion" → lookup r k = lookup le k) ∧
        sendMessage events = sendMessage (consumedEvents events)) ∧
    (∀ (pre : List Event) (e : Event) (post : List Event),
      (∀ x ∈ pre, isStopEvent x = false) → isStopEvent e = true →
      consumedEvents (pre ++ e :: post) = pre ++ [e]) := by
  constructor
  · intro events hne
    obtain ⟨le, hle⟩ : ∃ le, (consumedEvents events).getLast? = some le := by
      cases hg : (consumedEvents events).getLast? with
      | none => exact absurd (by simpa using hg) (consumedEvents_ne_nil events hne)
      | some le => exact ⟨le, rfl⟩
    refine ⟨dictInsert le "completion"
      (String.join (completionFragments (consumedEvents events))), le, ?_, hle, ?_, ?_, ?_⟩
    · rw [sendMessage_eq, hle]
    · exact lookup_dictInsert_self le "completion" _
    · intro k hk
      exact lookup_dictInsert_ne le "completion" k _ hk
    · rw [sendMessage_eq, sendMessage_eq, consumedEvents_idem, hle]
  · intro pre e post hpre he
    induction pre with
    | nil => simp [consumedEvents, he]
    | cons x xs ih =>
      have hx : isStopEvent x = false := hpre x (by simp)
      have hxs : ∀ y ∈ xs, isStopEvent y = false := fun y hy => hpre y (by simp [hy])
      simp [consumedEvents, hx, ih hxs]

/-- Witness for C1 at the spec's concrete event sequence
`[{completion:"A"}, {completion:"B"},
  {completion:"C", stop_reason:"stop_sequence", model:"claude-2.1"},
  {completion:"D"}]`. -/
theorem sendMessage_fold_spec_witness :
    ∃ r le,
      sendMessage [[("completion", "A")], [("completion", "B")],
        [("completion", "C"), ("stop_reason", "stop_sequence"), ("model", "claude-2.1")],
        [("completion", "D")]] = some r ∧
      (consumedEvents [[("completion", "A")], [("completion", "B")],
        [("completion", "C"), ("stop_reason", "stop_sequence"), ("model", "claude-2.1")],
        [("completion", "D")]]).getLast? = some le ∧
      lookup r "completion" =
        some (String.join (completionFragments
          (consumedEvents [[("completion", "A")], [("completion", "B")],
            [("completion", "C"), ("stop_reason", "stop_sequence"), ("model", "claude-2.1")],
            [("completion", "D")]]))) ∧
      (∀ k, k ≠ "completion" → lookup r k = lookup le k) ∧
      sendMessage [[("completion", "A")], [("completion", "B")],
        [("completion", "C"), ("stop_reason", "stop_sequence"), ("model", "claude-2.1")],
        [("completion", "D")]] =
        sendMessage (consumedEvents [[("completion", "A")], [("completion", "B")],
          [("completion", "C"), ("stop_reason", "stop_sequence"), ("model", "claude-2.1")],
          [("completion", "D")]]) :=
  sendMessage_fold_spec.1
    [[("completion", "A")], [("completion", "B")],
     [("completion", "C"), ("stop_reason", "stop_sequence"), ("model", "claude-2.1")],
     [("completion", "D")]] (by decide)

/-- Sanity check of the concrete fold result on the spec's example: the
completion is `"ABC"`, the stop event's other metadata survives, and the
fourth event is not consumed. -/
example :
    sendMessage [[("completion", "A")], [("completion", "B")],
      [("completion", "C"), ("stop_reason", "stop_sequence"), ("model", "claude-2.1")],
      [("completion", "D")]] =
    some [("completion", "ABC"), ("stop_reason", "stop_sequence"), ("model", "claude-2.1")] := by
  decide

/-- C2: with zero decoded events, the folded `send_message` returns `None`
(never an empty aggregated message). -/
theorem sendMessage_nil : sendMessage ([] : List Event) = none := rfl

/-- C10: for a non-empty consumed sequence, the result record is the
last-seen event updated at the `completion` key, so it always contains a
`completion` key whose value is the joined accumulator — `some ""` when no
consumed event carried a fragment. -/
theorem sendMessage_completion_key :
    ∀ events : List Event, events ≠ [] →
      ∃ r le, sendMessage events = some r ∧
        (consumedEvents events).getLast? = some le ∧
        r = dictInsert le "completion"
          (String.join (completionFragments (consumedEvents events))) ∧
        (lookup r "completion").isSome = true ∧
        ((∀ e ∈ consumedEvents events, lookup e "completion" = none) →
          lookup r "completion" = some "") := by
  intro events hne
  obtain ⟨le, hle⟩ : ∃ le, (consumedEvents events).getLast? = some le := by
    cases hg : (consumedEvents events).getLast? with
    | none => exact absurd (by simpa using hg) (consumedEvents_ne_nil events hne)
    | some le => exact ⟨le, rfl⟩
  refine ⟨dictInsert le "completion"
    (String.join (completionFragments (consumedEvents events))), le, ?_, hle, rfl, ?_, ?_⟩
  · rw [sendMessage_eq, hle]
  · rw [lookup_dictInsert_self]
    rfl
  · intro hnone
    have hfr : completionFragments (consumedEvents events) = [] := by
      simp only [completionFragments, List.filterMap_eq_nil_iff]
      exact hnone
    rw [lookup_dictInsert_self, hfr]
    rfl

/-- Witness for C10 at a sequence whose single (hence last) event has no
`completion` field: the key is still added, with the empty string. -/
theorem sendMessage_completion_key_witness :
    ∃ r le, sendMessage [[("model", "claude-2.1")]] = some r ∧
      (consumedEvents [[("model", "claude-2.1")]]).getLast? = some le ∧
      r = dictInsert le "completion"
        (String.join (completionFragments (consumedEvents [[("model", "claude-2.1")]]))) ∧
      (lookup r "completion").isSome = true ∧
      ((∀ e ∈ consumedEvents [[("model", "claude-2.1")]], lookup e "completion" = none) →
        lookup r "completion" = some "") :=
  sendMessage_completion_key [[("model", "claude-2.1")]] (by decide)

/-! ## Header claims C3 and C8 -/

/-- C3 counterexample: with the `RawClaudeAPI` constructor's default
`spoofed_headers = {}`, the header mapping reaching the streaming send path
carries no `accept` entry, and the augmentation raises `KeyError`
(modelled `none`) instead of setting the event-stream media type as the
sole value. -/
theorem addStreamAccept_missing_key_counterexample :
    rawApiSendMessageHeader [] "some-session-token" = none := by decide

/-- C3 (amended): the `accept` augmentation appends
`",text/event-stream,text/event-stream"` to a non-empty existing value,
replaces an empty-string value with `"text/event-stream,text/event-stream"`,
and faults (`KeyError`, modelled `none`) when the mapping has no `accept`
entry at all. -/
theorem addStreamAccept_spec (header : Headers) :
    (∀ v, lookup header "accept" = some v → v ≠ "" →
      addStreamAccept header =
        some (dictInsert header "accept" (v ++ ",text/event-stream,text/event-stream"))) ∧
    (lookup header "accept" = some "" →
      addStreamAccept header =
        some (dictInsert header "accept" "text/event-stream,text/event-stream")) ∧
    (lookup header "accept" = none → addStreamAccept header = none) := by
  refine ⟨?_, ?_, ?_⟩
  · intro v hv hne
    unfold addStreamAccept
    rw [hv]
    simp [hne]
  · intro hv
    unfold addStreamAccept
    rw [hv]
    simp
  · intro hv
    unfold addStreamAccept
    rw [hv]

/-- Witness for the amended C3 on all three branches. -/
theorem addStreamAccept_spec_witness :
    (addStreamAccept [("accept", "*/*")] =
      some (dictInsert [("accept", "*/*")] "accept"
        ("*/*" ++ ",text/event-stream,text/event-stream"))) ∧
    (addStreamAccept [("accept", "")] =
      some (dictInsert [("accept", "")] "accept" "text/event-stream,text/event-stream")) ∧
    (addStreamAccept [("content-type", "application/json")] = none) :=
  ⟨(addStreamAccept_spec [("accept", "*/*")]).1 "*/*" (by decide) (by decide),
   (addStreamAccept_spec [("accept", "")]).2.1 (by decide),
   (addStreamAccept_spec [("content-type", "application/json")]).2.2 (by decide)⟩

/-- C8: in the merge of the (composed) spoofed default headers with the
per-call headers, a key occurring in the per-call mapping resolves to the
per-call value, and a key absent from the per-call mapping keeps the value
it has in the spoofed default header. The per-call mapping is a Python
dict, hence duplicate-free. -/
theorem headerMerge_precedence (spoofed : Headers) (ua sk : String) (percall : Headers)
    (k : String) (hnd : (percall.map Prod.fst).Nodup) :
    (∀ v, lookup percall k = some v →
      lookup (requestHeader spoofed ua sk percall) k = some v) ∧
    (lookup percall k = none →
      lookup (requestHeader spoofed ua sk percall) k =
        lookup (getDefaultHeader spoofed ua sk) k) := by
  have hdn : ((getDefaultHeader spoofed ua sk).map Prod.fst).Nodup := by
    unfold getDefaultHeader
    exact nodup_keys_dictUpdate _ _
      (nodup_keys_dictUpdate _ _ (nodup_keys_dictUpdate _ _ (by simp)))
  constructor
  · intro v hv
    unfold requestHeader
    rw [lookup_dictUpdate _ _ _ hnd, hv]
  · intro hv
    unfold requestHeader
    rw [lookup_dictUpdate _ _ _ hnd, hv]
    rw [lookup_dictUpdate _ _ _ hdn]
    cases hd : lookup (getDefaultHeader spoofed ua sk) k with
    | some v => simp
    | none => simp [lookup]

/-- Witness for C8: `content-type` is supplied per-call and wins; `dnt`
lives only in the spoofed defaults and survives unchanged. -/
theorem headerMerge_precedence_witness :
    lookup (requestHeader [("accept", "*/*"), ("dnt", "1")] "UA" "KEY"
      [("content-type", "application/json")]) "content-type" = some "application/json" ∧
    lookup (requestHeader [("accept", "*/*"), ("dnt", "1")] "UA" "KEY"
      [("content-type", "application/json")]) "dnt" =
      lookup (getDefaultHeader [("accept", "*/*"), ("dnt", "1")] "UA" "KEY") "dnt" :=
  ⟨(headerMerge_precedence [("accept", "*/*"), ("dnt", "1")] "UA" "KEY"
      [("content-type", "application/json")] "content-type" (by decide)).1
      "application/json" (by decide),
   (headerMerge_precedence [("accept", "*/*"), ("dnt", "1")] "UA" "KEY"
      [("content-type", "application/json")] "dnt" (by decide)).2 (by decide)⟩

/-! ## Transport claims C4 and C5 -/

/-- C4: all four non-streaming transport calls produce their `Response`
through `_safe_request_read`, and every `Response` it produces satisfies the
invariant: `ok = true` implies no error and `data` equal to the full
response body, `ok = false` implies empty `data`. -/
theorem response_result_invariant :
    (∀ o : UrlOpenOutcome, ResultInvariant o (safeRequestRead o)) ∧
    (∀ url headers net, get url headers net =
      safeRequestRead (net (getRequest url headers))) ∧
    (∀ url headers body net, post url headers body net =
      safeRequestRead (net (postRequest url headers body))) ∧
    (∀ url headers net, delete url headers net =
      safeRequestRead (net (deleteRequest url headers))) ∧
    (∀ b url headers fd net, postFormData b url headers fd net =
      safeRequestRead (net (postRequest url (postFormDataHeaders b headers fd)
        (some (FormData.encode b fd).2)))) := by
  refine ⟨?_, fun _ _ _ => rfl, fun _ _ _ _ => rfl, fun _ _ _ => rfl, fun _ _ _ _ _ => rfl⟩
  intro o
  cases o with
  | success s body =>
    exact ⟨fun _ => ⟨rfl, s, body, rfl, rfl⟩, fun h => by simp [safeRequestRead] at h⟩
  | raiseBeforeStatus msg =>
    exact ⟨fun h => by simp [safeRequestRead] at h, fun _ => rfl⟩
  | raiseAfterStatus s msg =>
    exact ⟨fun h => by simp [safeRequestRead] at h, fun _ => rfl⟩

/-- Witness for C4: a successful 200 outcome carries its body and no error;
a failed outcome carries empty data. -/
theorem response_result_invariant_witness :
    ((safeRequestRead (.success 200 "body-bytes".data)).error = none ∧
      ∃ s body, UrlOpenOutcome.success 200 "body-bytes".data = .success s body ∧
        (safeRequestRead (.success 200 "body-bytes".data)).data = body) ∧
    (safeRequestRead (.raiseBeforeStatus "urlopen error")).data = [] :=
  ⟨(response_result_invariant.1 (.success 200 "body-bytes".data)).1 rfl,
   (response_result_invariant.1 (.raiseBeforeStatus "urlopen error")).2 rfl⟩

/-- C5 counterexample: for a GET whose endpoint answers HTTP 500, `urlopen`
raises `HTTPError` before `getcode()` runs, so `_safe_request_read` returns
its still-`None` local `status_code` — not 500 as the claim states. -/
theorem get_http500_counterexample :
    (get "https://claude.ai/api/organizations" [("accept", "*/*")]
      (fun _ => .raiseBeforeStatus "HTTP Error 500: Internal Server Error")).status_code
        = none ∧
    (get "https://claude.ai/api/organizations" [("accept", "*/*")]
      (fun _ => .raiseBeforeStatus "HTTP Error 500: Internal Server Error")).status_code
        ≠ some 500 := by
  constructor
  · rfl
  · decide

/-- C5 (amended): a GET to an endpoint answering HTTP 500 yields
`ok = false`, empty `data` and a non-empty error string, but `status_code`
is `None` (the status is lost because `urlopen` raises `HTTPError` before
`getcode()` is reached). -/
theorem get_http500_spec (url : String) (headers : Headers) (msg : String)
    (hmsg : msg ≠ "") :
    (get url headers (fun _ => .raiseBeforeStatus msg)).ok = false ∧
    (get url headers (fun _ => .raiseBeforeStatus msg)).status_code = none ∧
    (get url headers (fun _ => .raiseBeforeStatus msg)).data = [] ∧
    ∃ m, (get url headers (fun _ => .raiseBeforeStatus msg)).error = some m ∧ m ≠ "" :=
  ⟨rfl, rfl, rfl, msg, rfl, hmsg⟩

/-- Witness for the amended C5 at a concrete 500 response. -/
theorem get_http500_spec_witness :
    (get "https://claude.ai/api/organizations" [("accept", "*/*")]
      (fun _ => .raiseBeforeStatus "HTTP Error 500: Internal Server Error")).ok = false ∧
    (get "https://claude.ai/api/organizations" [("accept", "*/*")]
      (fun _ => .raiseBeforeStatus "HTTP Error 500: Internal Server Error")).status_code
        = none ∧
    (get "https://claude.ai/api/organizations" [("accept", "*/*")]
      (fun _ => .raiseBeforeStatus "HTTP Error 500: Internal Server Error")).data = [] ∧
    ∃ m, (get "https://claude.ai/api/organizations" [("accept", "*/*")]
      (fun _ => .raiseBeforeStatus "HTTP Error 500: Internal Server Error")).error
        = some m ∧ m ≠ "" :=
  get_http500_spec "https://claude.ai/api/organizations" [("accept", "*/*")]
    "HTTP Error 500: Internal Server Error" (by decide)

/-! ## SSE claim C6 -/

/-- C6 counterexample: the sequence a caller observes from `sse` is
identical for a stream that ended normally after `"data1"` and one that hit
a transport failure after `"data1"` — the caught error is only printed, so
no attached error exists and the two endings cannot be distinguished. -/
theorem sse_transport_error_counterexample :
    sse (.ended ["data1"]) = sse (.transportError ["data1"] "connection refused") := rfl

/-- C6 (amended): on a transport failure the `sse` sequence does terminate
immediately after the events already yielded and no fault is raised into
the caller, but the failure is not attached to the end of the sequence:
the observed sequence equals that of a normally-ended stream. -/
theorem sse_swallows_transport_error (events : List String) (msg : String) :
    sse (.transportError events msg) = events ∧
    sse (.transportError events msg) = sse (.ended events) :=
  ⟨rfl, rfl⟩

/-! ## Multipart ordering claim C9 -/

theorem dictUpdate_nil_right {α : Type} (d : List (String × α)) : dictUpdate d [] = d := rfl

theorem fieldBytes_true (b : String) (l : List (String × String)) (h : l ≠ []) :
    fieldBytes b l true = crlf ++ fieldBytes b l false := by
  cases l with
  | nil => exact absurd rfl h
  | cons kv rest =>
    obtain ⟨k, v⟩ := kv
    simp [fieldBytes]

theorem fileBytes_true (b : String) (l : List (String × (String × List Char))) (h : l ≠ []) :
    fileBytes b l true = crlf ++ fileBytes b l false := by
  cases l with
  | nil => exact absurd rfl h
  | cons kfc rest =>
    obtain ⟨k, fn, c⟩ := kfc
    simp [fileBytes]

theorem joinCRLF_cons_ne (x : List Char) (l : List (List Char)) (h : l ≠ []) :
    joinCRLF (x :: l) = x ++ crlf ++ joinCRLF l := by
  cases l with
  | nil => exact absurd rfl h
  | cons y rest => simp [joinCRLF]

theorem fieldBytes_cons_false (b : String) (k v : String) (rest : List (String × String)) :
    fieldBytes b ((k, v) :: rest) false =
      (fieldChunkStr b k v).data ++ fieldBytes b rest true := by
  simp [fieldBytes]

theorem fileBytes_cons_false (b : String) (k fn : String) (c : List Char)
    (rest : List (String × (String × List Char))) :
    fileBytes b ((k, (fn, c)) :: rest) false =
      (fileChunkHeaderStr b k fn).data ++ crlf ++ c ++ fileBytes b rest true := by
  simp [fileBytes]

theorem fileBytes_joinCRLF (b : String) (files : List (String × (String × List Char))) :
    fileBytes b files false = joinCRLF (files.map (fileChunk b)) := by
  induction files with
  | nil => rfl
  | cons kfc rest ih =>
    obtain ⟨k, fn, c⟩ := kfc
    rw [fileBytes_cons_false, List.map_cons]
    by_cases hr : rest = []
    · subst hr
      simp [fileBytes, joinCRLF, fileChunk]
    · rw [fileBytes_true b rest hr, ih,
        joinCRLF_cons_ne _ _ (by simpa using hr), fileChunk]
      simp

theorem bytes_joinCRLF (b : String) (fields : List (String × String))
    (files : List (String × (String × List Char))) :
    fieldBytes b fields false ++ fileBytes b files (!fields.isEmpty) =
      joinCRLF (fields.map (fieldChunk b) ++ files.map (fileChunk b)) := by
  induction fields with
  | nil =>
    simp only [fieldBytes, List.isEmpty_nil, Bool.not_true, List.nil_append, List.map_nil]
    exact fileBytes_joinCRLF b files
  | cons kv restf ih =>
    obtain ⟨k, v⟩ := kv
    have hflag : (!((k, v) :: restf).isEmpty) = true := by simp
    rw [fieldBytes_cons_false, hflag, List.map_cons, List.cons_append]
    by_cases hrf : restf = []
    · subst hrf
      simp only [fieldBytes, List.map_nil, List.nil_append, List.append_nil]
      by_cases hfl : files = []
      · subst hfl
        simp [fileBytes, joinCRLF, fieldChunk]
      · rw [fileBytes_true b files hfl, fileBytes_joinCRLF b files,
          joinCRLF_cons_ne _ _ (by simpa using hfl), fieldChunk]
        simp
    · have hflag2 : (!restf.isEmpty) = true := by
        cases restf with
        | nil => exact absurd rfl hrf
        | cons x xs => rfl
      have ih' := ih
      rw [hflag2] at ih'
      rw [fieldBytes_true b restf hrf,
        joinCRLF_cons_ne _ _ (by simp [hrf]), fieldChunk, ← ih']
      simp

theorem buildFormData_fold (ops : List FormOp) (fd : FormData) :
    (ops.foldl applyFormOp fd).fields =
      dictUpdate fd.fields (ops.filterMap FormOp.fieldEntry?) ∧
    (ops.foldl applyFormOp fd).files =
      dictUpdate fd.files (ops.filterMap FormOp.fileEntry?) := by
  induction ops generalizing fd with
  | nil => exact ⟨rfl, rfl⟩
  | cons op rest ih =>
    cases op with
    | addField k v =>
      have h := ih { fd with fields := dictInsert fd.fields k v }
      exact ⟨h.1, h.2⟩
    | addFile k fn c =>
      have h := ih { fd with files := dictInsert fd.files k (fn, c) }
      exact ⟨h.1, h.2⟩

theorem filterMap_fieldEntry_filter (ops : List FormOp) :
    (ops.filter (fun op => op.isFieldOp)).filterMap FormOp.fieldEntry? =
      ops.filterMap FormOp.fieldEntry? := by
  induction ops with
  | nil => rfl
  | cons op rest ih =>
    cases op with
    | addField k v => exact congrArg (List.cons (k, v)) ih
    | addFile k fn c => exact ih

theorem filterMap_fieldEntry_filter_not (ops : List FormOp) :
    (ops.filter (fun op => !op.isFieldOp)).filterMap FormOp.fieldEntry? = [] := by
  induction ops with
  | nil => rfl
  | cons op rest ih =>
    cases op with
    | addField k v => exact ih
    | addFile k fn c => exact ih

theorem filterMap_fileEntry_filter (ops : List FormOp) :
    (ops.filter (fun op => !op.isFieldOp)).filterMap FormOp.fileEntry? =
      ops.filterMap FormOp.fileEntry? := by
  induction ops with
  | nil => rfl
  | cons op rest ih =>
    cases op with
    | addField k v => exact ih
    | addFile k fn c => exact congrArg (List.cons (k, (fn, c))) ih

theorem filterMap_fileEntry_filter_not (ops : List FormOp) :
    (ops.filter (fun op => op.isFieldOp)).filterMap FormOp.fileEntry? = [] := by
  induction ops with
  | nil => rfl
  | cons op rest ih =>
    cases op with
    | addField k v => exact ih
    | addFile k fn c => exact ih

theorem formData_eq (a b : FormData) (h1 : a.fields = b.fields) (h2 : a.files = b.files) :
    a = b := by
  cases a
  cases b
  simp_all

theorem buildFormData_spec (ops : List FormOp) :
    (buildFormData ops).fields = dictUpdate [] (ops.filterMap FormOp.fieldEntry?) ∧
    (buildFormData ops).files = dictUpdate [] (ops.filterMap FormOp.fileEntry?) :=
  buildFormData_fold ops ⟨[], []⟩

/-- C9: however the entries were interleaved when the form was built (the
constructor loop and `add_field`/`add_file` perform the same dict writes),
the `_fields` dict is determined by the plain-string entries alone and the
`_files` dict by the file entries alone, the built form equals the one
built with all plain entries first, and `encode` lays out all plain-field
chunks before all file chunks. -/
theorem encode_fields_before_files (b : String) (ops : List FormOp) :
    (buildFormData ops).fields = dictUpdate [] (ops.filterMap FormOp.fieldEntry?) ∧
    (buildFormData ops).files = dictUpdate [] (ops.filterMap FormOp.fileEntry?) ∧
    buildFormData ops = buildFormData
      (ops.filter (fun op => op.isFieldOp) ++ ops.filter (fun op => !op.isFieldOp)) ∧
    (FormData.encode b (buildFormData ops)).2 =
      joinCRLF ((buildFormData ops).fields.map (fieldChunk b) ++
        (buildFormData ops).files.map (fileChunk b)) ++ footerBytes b := by
  refine ⟨(buildFormData_spec ops).1, (buildFormData_spec ops).2, ?_, ?_⟩
  · apply formData_eq
    · rw [(buildFormData_spec ops).1,
        (buildFormData_spec _).1, List.filterMap_append,
        filterMap_fieldEntry_filter, filterMap_fieldEntry_filter_not, List.append_nil]
    · rw [(buildFormData_spec ops).2,
        (buildFormData_spec _).2, List.filterMap_append,
        filterMap_fileEntry_filter, filterMap_fileEntry_filter_not, List.nil_append]
  · have h := bytes_joinCRLF b (buildFormData ops).fields (buildFormData ops).files
    show fieldBytes b (buildFormData ops).fields false ++
        fileBytes b (buildFormData ops).files (!(buildFormData ops).fields.isEmpty) ++
        footerBytes b = _
    rw [h]

/-! ## Multipart roundtrip claim C7 -/

theorem stripLead_append {α : Type} [DecidableEq α] (p s : List α) :
    stripLead p (p ++ s) = some s := by
  induction p with
  | nil => rfl
  | cons c cs ih => simp [stripLead, ih]

theorem splitFirst_emb {α : Type} [DecidableEq α] (m0 : α) (ms pre post : List α)
    (h : m0 ∉ pre) :
    splitFirst (m0 :: ms) (pre ++ ((m0 :: ms) ++ post)) = some (pre, post) := by
  induction pre with
  | nil =>
    rw [List.nil_append]
    have h1 : stripLead (m0 :: ms) ((m0 :: ms) ++ post) = some post := stripLead_append _ _
    rw [List.cons_append]
    rw [List.cons_append] at h1
    simp [splitFirst, h1]
  | cons c0 pre' ih =>
    have hne : m0 ≠ c0 := fun hh => h (by simp [hh])
    have h2 : stripLead (m0 :: ms) (c0 :: (pre' ++ ((m0 :: ms) ++ post))) = none := by
      simp [stripLead, hne]
    have ih' : splitFirst (m0 :: ms) (pre' ++ ((m0 :: ms) ++ post)) = some (pre', post) :=
      ih (fun hh => h (List.mem_cons_of_mem _ hh))
    rw [List.cons_append]
    simp only [List.cons_append] at h2 ih' ⊢
    simp [splitFirst, h2, ih']

theorem splitFirst_crlf (pre post : List Char) (h : '\r' ∉ pre) :
    splitFirst crlf (pre ++ (crlf ++ post)) = some (pre, post) :=
  splitFirst_emb '\r' ['\n'] pre post h

theorem splitFirst_crlfMarker (m pre post : List Char) (h : '\r' ∉ pre) :
    splitFirst (crlf ++ m) (pre ++ ((crlf ++ m) ++ post)) = some (pre, post) :=
  splitFirst_emb '\r' ('\n' :: m) pre post h

theorem splitFirst_quote (pre post : List Char) (h : '\"' ∉ pre) :
    splitFirst ['\"'] (pre ++ (['\"'] ++ post)) = some (pre, post) :=
  splitFirst_emb '\"' [] pre post h

theorem splitFirst_quote_end (pre : List Char) (h : '\"' ∉ pre) :
    splitFirst ['\"'] (pre ++ ['\"']) = some (pre, []) := by
  have h1 := splitFirst_emb '\"' [] pre [] h
  simpa using h1

/-- Parsing the closing `--` + CRLF yields the empty part list. -/
theorem parseParts_nil_step (b : String) (fuel : Nat) :
    parseParts b (fuel + 1) (("--" ++ CRLF).data) = some [] := by
  simp only [parseParts]
  split
  · simp
  · next s1 heq =>
    have hnone : stripLead crlf (("--" ++ CRLF).data) = none := by decide
    rw [hnone] at heq
    cases heq

/-- Parsing one plain-field part: consumes the part's bytes and conses the
recovered field onto whatever the rest parses to. -/
theorem parseParts_field_step (b : String) (fuel : Nat) (k v : String) (tail : List Char)
    (hk_r : '\r' ∉ k.data) (hk_q : '\"' ∉ k.data) (hv : '\r' ∉ v.data) :
    parseParts b (fuel + 1)
      ((CRLF ++ dispositionLead ++ k ++ "\"" ++ CRLF ++ CRLF ++ v).data
        ++ crlf ++ ("--" ++ b).data ++ tail) =
      (parseParts b fuel tail).bind fun parts => some (.field k v :: parts) := by
  have hq1 : ("\"" : String).data = ['\"'] := rfl
  have hc : CRLF.data = crlf := rfl
  have hs : (CRLF ++ dispositionLead ++ k ++ "\"" ++ CRLF ++ CRLF ++ v).data
      ++ crlf ++ ("--" ++ b).data ++ tail =
      crlf ++ ((dispositionLead.data ++ (k.data ++ ['\"'])) ++
        (crlf ++ (crlf ++ (v.data ++ ((crlf ++ ("--" ++ b).data) ++ tail))))) := by
    simp [String.data_append, hq1, hc]
  rw [hs]
  simp only [parseParts]
  split
  · next heq =>
    rw [stripLead_append] at heq
    cases heq
  · next s1 heq =>
    rw [stripLead_append] at heq
    injection heq with heq1
    subst heq1
    rw [splitFirst_crlf _ _ (by
      intro hmem
      rcases List.mem_append.mp hmem with h1 | h2
      · exact absurd h1 (by decide)
      · rcases List.mem_append.mp h2 with h3 | h4
        · exact hk_r h3
        · exact absurd h4 (by decide))]
    simp only [Option.some_bind]
    rw [stripLead_append]
    simp only [Option.some_bind]
    rw [splitFirst_quote_end k.data hk_q]
    simp only [Option.some_bind]
    simp only [if_true]
    rw [stripLead_append]
    simp only [Option.some_bind]
    rw [splitFirst_crlfMarker _ v.data tail hv]
    simp only [Option.some_bind]

/-- Parsing one file part: consumes the part's bytes and conses the
recovered file (with its content-type line) onto the rest. -/
theorem parseParts_file_step (b : String) (fuel : Nat) (k fn ct : String) (c tail : List Char)
    (hk_r : '\r' ∉ k.data) (hk_q : '\"' ∉ k.data) (hfn_r : '\r' ∉ fn.data)
    (hfn_q : '\"' ∉ fn.data) (hct : '\r' ∉ ct.data) (hc : '\r' ∉ c) :
    parseParts b (fuel + 1)
      ((CRLF ++ dispositionLead ++ k ++ "\"" ++ fileNameLead ++ fn ++ "\"" ++ CRLF
        ++ contentTypeLead ++ ct ++ CRLF ++ CRLF).data ++ c
        ++ crlf ++ ("--" ++ b).data ++ tail) =
      (parseParts b fuel tail).bind fun parts => some (.file k fn ct c :: parts) := by
  have hq1 : ("\"" : String).data = ['\"'] := rfl
  have hcr : CRLF.data = crlf := rfl
  have hs : (CRLF ++ dispositionLead ++ k ++ "\"" ++ fileNameLead ++ fn ++ "\"" ++ CRLF
      ++ contentTypeLead ++ ct ++ CRLF ++ CRLF).data ++ c
      ++ crlf ++ ("--" ++ b).data ++ tail =
      crlf ++ ((dispositionLead.data ++ (k.data ++ (['\"'] ++ (fileNameLead.data ++
          (fn.data ++ ['\"']))))) ++
        (crlf ++ ((contentTypeLead.data ++ ct.data) ++
          (crlf ++ (crlf ++ (c ++ ((crlf ++ ("--" ++ b).data) ++ tail))))))) := by
    simp [String.data_append, hq1, hcr]
  rw [hs]
  simp only [parseParts]
  split
  · next heq =>
    rw [stripLead_append] at heq
    cases heq
  · next s1 heq =>
    rw [stripLead_append] at heq
    injection heq with heq1
    subst heq1
    rw [splitFirst_crlf _ _ (by
      intro hmem
      rcases List.mem_append.mp hmem with h1 | h2
      · exact absurd h1 (by decide)
      · rcases List.mem_append.mp h2 with h3 | h4
        · exact hk_r h3
        · rcases List.mem_append.mp h4 with h5 | h6
          · exact absurd h5 (by decide)
          · rcases List.mem_append.mp h6 with h7 | h8
            · exact absurd h7 (by decide)
            · rcases List.mem_append.mp h8 with h9 | h10
              · exact hfn_r h9
              · exact absurd h10 (by decide))]
    simp only [Option.some_bind]
    rw [stripLead_append]
    simp only [Option.some_bind]
    rw [splitFirst_quote k.data _ hk_q]
    simp only [Option.some_bind]
    rw [if_neg (by
      intro hh
      have h1 := (List.append_eq_nil.mp hh).1
      exact absurd h1 (by decide))]
    rw [stripLead_append]
    simp only [Option.some_bind]
    rw [splitFirst_quote_end fn.data hfn_q]
    simp only [Option.some_bind]
    simp only [if_true]
    rw [splitFirst_crlf _ _ (by
      intro hmem
      rcases List.mem_append.mp hmem with h1 | h2
      · exact absurd h1 (by decide)
      · exact hct h2)]
    simp only [Option.some_bind]
    rw [stripLead_append]
    simp only [Option.some_bind]
    rw [stripLead_append]
    simp only [Option.some_bind]
    rw [splitFirst_crlfMarker _ c tail hc]
    simp only [Option.some_bind]

/-- The reference parser inverts `renderAfter` on well-formed parts, given
enough fuel. -/
theorem parseParts_renderAfter (b : String) (parts : List FormPart)
    (hwf : ∀ p ∈ parts, p.wf) :
    ∀ fuel, parts.length < fuel →
      parseParts b fuel (renderAfter b parts) = some parts := by
  induction parts with
  | nil =>
    intro fuel hf
    cases fuel with
    | zero => omega
    | succ f => exact parseParts_nil_step b f
  | cons p rest ih =>
    intro fuel hf
    cases fuel with
    | zero => omega
    | succ f =>
      have hp := hwf p (by simp)
      have hrest : ∀ q ∈ rest, q.wf := fun q hq => hwf q (by simp [hq])
      have hlen : rest.length < f := by
        simp only [List.length_cons] at hf
        omega
      have hih := ih hrest f hlen
      cases p with
      | field k v =>
        obtain ⟨h1, h2, h3⟩ := hp
        have hstep := parseParts_field_step b f k v (renderAfter b rest) h1 h2 h3
        rw [show renderAfter b (.field k v :: rest) =
          (CRLF ++ dispositionLead ++ k ++ "\"" ++ CRLF ++ CRLF ++ v).data
            ++ crlf ++ ("--" ++ b).data ++ renderAfter b rest from rfl]
        rw [hstep, hih]
        rfl
      | file k fn ct c =>
        obtain ⟨h1, h2, h3, h4, h5, h6⟩ := hp
        have hstep := parseParts_file_step b f k fn ct c (renderAfter b rest)
          h1 h2 h3 h4 h5 h6
        rw [show renderAfter b (.file k fn ct c :: rest) =
          (CRLF ++ dispositionLead ++ k ++ "\"" ++ fileNameLead ++ fn ++ "\"" ++ CRLF
            ++ contentTypeLead ++ ct ++ CRLF ++ CRLF).data ++ c
            ++ crlf ++ ("--" ++ b).data ++ renderAfter b rest from rfl]
        rw [hstep, hih]
        rfl

theorem length_le_renderAfter (b : String) (parts : List FormPart) :
    parts.length ≤ (renderAfter b parts).length := by
  induction parts with
  | nil => exact Nat.zero_le _
  | cons p rest ih =>
    cases p with
    | field k v =>
      simp only [renderAfter, List.length_append, List.length_cons, String.data_append]
      have h2 : crlf.length = 2 := rfl
      have h3 : CRLF.data.length = 2 := rfl
      omega
    | file k fn ct c =>
      simp only [renderAfter, List.length_append, List.length_cons, String.data_append]
      have h2 : crlf.length = 2 := rfl
      have h3 : CRLF.data.length = 2 := rfl
      omega

theorem ctOf_cr_free (fn : String) : '\r' ∉ (ctOf fn).data := by
  unfold ctOf guess_type
  split_ifs <;> decide

/-- The hypotheses of the roundtrip theorem make every encoded part
well-formed. -/
theorem formParts_wf (fd : FormData)
    (hfields : ∀ kv ∈ fd.fields, '\r' ∉ kv.1.data ∧ '\"' ∉ kv.1.data ∧ '\r' ∉ kv.2.data)
    (hfiles : ∀ kfc ∈ fd.files, '\r' ∉ kfc.1.data ∧ '\"' ∉ kfc.1.data ∧
      '\r' ∉ kfc.2.1.data ∧ '\"' ∉ kfc.2.1.data ∧ '\r' ∉ kfc.2.2) :
    ∀ p ∈ formParts fd, p.wf := by
  intro p hp
  rcases List.mem_append.mp hp with hmem | hmem
  · obtain ⟨kv, hkv, rfl⟩ := List.mem_map.mp hmem
    have h := hfields kv hkv
    exact ⟨h.1, h.2.1, h.2.2⟩
  · obtain ⟨kfc, hkfc, rfl⟩ := List.mem_map.mp hmem
    have h := hfiles kfc hkfc
    exact ⟨h.1, h.2.1, h.2.2.1, h.2.2.2.1, ctOf_cr_free kfc.2.1, h.2.2.2.2⟩

/-- Bridge, files-only case: the files loop plus the footer produce exactly
the marker-led rendering of the file parts. -/
theorem encode_renderAfter_files (b : String)
    (files : List (String × (String × List Char))) (hne : files ≠ []) :
    fileBytes b files false ++ footerBytes b =
      ("--" ++ b).data ++ renderAfter b
        (files.map (fun kfc => FormPart.file kfc.1 kfc.2.1 (ctOf kfc.2.1) kfc.2.2)) := by
  induction files with
  | nil => exact absurd rfl hne
  | cons kfc rest ih =>
    obtain ⟨k, fn, c⟩ := kfc
    rw [fileBytes_cons_false, List.map_cons]
    by_cases hr : rest = []
    · subst hr
      simp [fileBytes, renderAfter, footerBytes, fileChunkHeaderStr, boundarySegment,
        String.data_append, crlf]
    · rw [fileBytes_true b rest hr]
      have hih := ih hr
      simp only [List.append_assoc]
      simp only [List.append_assoc] at hih
      rw [hih]
      simp [renderAfter, fileChunkHeaderStr, boundarySegment, String.data_append, crlf]

/-- Bridge: the encoder's two loops plus the footer produce exactly the
marker-led rendering of all parts, fields first. -/
theorem encode_renderAfter_parts (b : String) (fields : List (String × String))
    (files : List (String × (String × List Char))) (hne : fields ≠ [] ∨ files ≠ []) :
    fieldBytes b fields false ++ fileBytes b files (!fields.isEmpty) ++ footerBytes b =
      ("--" ++ b).data ++ renderAfter b
        (fields.map (fun kv => FormPart.field kv.1 kv.2) ++
         files.map (fun kfc => FormPart.file kfc.1 kfc.2.1 (ctOf kfc.2.1) kfc.2.2)) := by
  induction fields with
  | nil =>
    cases hne with
    | inl h => exact absurd rfl h
    | inr h =>
      simp only [fieldBytes, List.nil_append, List.map_nil, List.isEmpty_nil, Bool.not_true]
      exact encode_renderAfter_files b files h
  | cons kv restf ih =>
    obtain ⟨k, v⟩ := kv
    have hflag : (!((k, v) :: restf).isEmpty) = true := by simp
    rw [fieldBytes_cons_false, hflag, List.map_cons, List.cons_append]
    by_cases hrf : restf = []
    · subst hrf
      simp only [fieldBytes, List.append_nil, List.map_nil, List.nil_append]
      by_cases hfl : files = []
      · subst hfl
        simp [fileBytes, renderAfter, footerBytes, fieldChunkStr, boundarySegment,
          String.data_append, crlf]
      · rw [fileBytes_true b files hfl]
        have hbr := encode_renderAfter_files b files hfl
        simp only [List.append_assoc]
        simp only [List.append_assoc] at hbr
        rw [hbr]
        simp [renderAfter, fieldChunkStr, boundarySegment, String.data_append, crlf]
    · have hflag2 : (!restf.isEmpty) = true := by
        cases restf with
        | nil => exact absurd rfl hrf
        | cons x xs => rfl
      have ih' := ih (Or.inl hrf)
      rw [hflag2] at ih'
      rw [fieldBytes_true b restf hrf]
      simp only [List.append_assoc]
      simp only [List.append_assoc] at ih'
      rw [ih']
      simp [renderAfter, fieldChunkStr, boundarySegment, String.data_append, crlf]

/-- C7: `FormData.encode` lays each plain field out as boundary line,
`content-disposition` line, blank line, value, and each file field as
boundary line, `content-disposition` line with name and filename, a
`content-type` line guessed from the extension (`application/octet-stream`
when unknown), blank line, then exactly the file bytes; parts are separated
by CRLF and the buffer ends with the `--`-suffixed closing boundary — and a
reference multipart parser recovers the original field values and file
bytes from the encoded body. The hypotheses state that names and filenames
contain no CR and no double quote and that values and file bytes contain no
CR, so the boundary framing is unambiguous (the code relies on the random
boundary for this). -/
theorem multipart_encode_roundtrip (b : String) (fd : FormData)
    (hfields : ∀ kv ∈ fd.fields, '\r' ∉ kv.1.data ∧ '\"' ∉ kv.1.data ∧ '\r' ∉ kv.2.data)
    (hfiles : ∀ kfc ∈ fd.files, '\r' ∉ kfc.1.data ∧ '\"' ∉ kfc.1.data ∧
      '\r' ∉ kfc.2.1.data ∧ '\"' ∉ kfc.2.1.data ∧ '\r' ∉ kfc.2.2)
    (hne : formParts fd ≠ []) :
    (FormData.encode b fd).2 = ("--" ++ b).data ++ renderAfter b (formParts fd) ∧
    multipartParse b (FormData.encode b fd).2 = some (formParts fd) := by
  have hne2 : fd.fields ≠ [] ∨ fd.files ≠ [] := by
    by_cases h1 : fd.fields = []
    · refine Or.inr ?_
      intro h2
      exact hne (by simp [formParts, h1, h2])
    · exact Or.inl h1
  have hbridge : (FormData.encode b fd).2 =
      ("--" ++ b).data ++ renderAfter b (formParts fd) := by
    show fieldBytes b fd.fields false ++ fileBytes b fd.files (!fd.fields.isEmpty)
      ++ footerBytes b = _
    exact encode_renderAfter_parts b fd.fields fd.files hne2
  refine ⟨hbridge, ?_⟩
  rw [hbridge]
  unfold multipartParse
  split
  · next heq =>
    rw [stripLead_append] at heq
    cases heq
  · next rest heq =>
    rw [stripLead_append] at heq
    injection heq with heq1
    subst heq1
    exact parseParts_renderAfter b (formParts fd) (formParts_wf fd hfields hfiles) _
      (Nat.lt_succ_of_le (length_le_renderAfter b (formParts fd)))

/-- Witness for C7 at the spec's §8 scenario
`{"orgUuid": "org-123", "file": ("notes.txt", b"hello")}` with a concrete
boundary. -/
theorem multipart_encode_roundtrip_witness :
    (FormData.encode "b7a3f" ⟨[("orgUuid", "org-123")], [("file", ("notes.txt", "hello".data))]⟩).2 =
      ("--" ++ "b7a3f").data ++ renderAfter "b7a3f"
        (formParts ⟨[("orgUuid", "org-123")], [("file", ("notes.txt", "hello".data))]⟩) ∧
    multipartParse "b7a3f"
      (FormData.encode "b7a3f" ⟨[("orgUuid", "org-123")], [("file", ("notes.txt", "hello".data))]⟩).2 =
      some (formParts ⟨[("orgUuid", "org-123")], [("file", ("notes.txt", "hello".data))]⟩) :=
  multipart_encode_roundtrip "b7a3f"
    ⟨[("orgUuid", "org-123")], [("file", ("notes.txt", "hello".data))]⟩
    (by decide) (by decide) (by decide)

end ClaudeSpec
